import Mathlib

/-!
Verification of the natives-mirror front-end (`app.js`) of massdync/fivem-docs.

JavaScript strings are modelled shallowly as `List Char` (the data relevant to
the claims is ASCII).  Each definition below is translated from the source
file; definitions whose name starts with `spec` are instead written from the
specification's words, for comparison against the source-derived ones.
-/

namespace FivemNatives

/-- JS strings, modelled as lists of characters. -/
abbrev Str := List Char

/-- The character list of a Lean string literal (notation helper). -/
def S (s : String) : Str := s.data

/-- ECMAScript `String.prototype.toLowerCase`, per character, restricted to
the ASCII range (the only case mappings exercised by the repository's data:
`A`..`Z`, code points 65..90, map to 97..122). -/
def jsCharToLower (c : Char) : Char :=
  if 65 ≤ c.toNat ∧ c.toNat ≤ 90 then Char.ofNat (c.toNat + 32) else c

/-- ECMAScript `String.prototype.toUpperCase`, per character, ASCII range. -/
def jsCharToUpper (c : Char) : Char :=
  if 97 ≤ c.toNat ∧ c.toNat ≤ 122 then Char.ofNat (c.toNat - 32) else c

/-- `s.toLowerCase()`. -/
def jsToLower (s : Str) : Str := s.map jsCharToLower

/-- Whitespace as removed by `String.prototype.trim` (ASCII subset: space,
tab, line feed, carriage return, vertical tab, form feed). -/
def jsIsWhitespace (c : Char) : Bool :=
  c.toNat == 32 || c.toNat == 9 || c.toNat == 10 || c.toNat == 13 ||
  c.toNat == 11 || c.toNat == 12

/-- `s.trim()`: drop whitespace from both ends. -/
def jsTrim (s : Str) : Str :=
  (((s.dropWhile jsIsWhitespace).reverse).dropWhile jsIsWhitespace).reverse

/-- The character class `[0-9a-f]` under the regex `i` flag. -/
def isHexDigitCI (c : Char) : Bool :=
  (48 ≤ c.toNat && c.toNat ≤ 57) || (97 ≤ c.toNat && c.toNat ≤ 102) ||
  (65 ≤ c.toNat && c.toNat ≤ 70)

/-- Whether `s` starts with `0x`, case-insensitively on the `x`
(the regex fragment `^0x` under the `i` flag; `0` has no case). -/
def startsWith0xCI : Str → Bool
  | '0' :: c :: _ => c == 'x' || c == 'X'
  | _ => false

/-- The test `/^_?0x/i.test(s)` (app.js lines 65, 183, 197): an optional
leading underscore followed by `0x`, case-insensitive, with **no**
requirement of hex digits after the `x`.  (If `s` starts with `_` the only
way the regex can match is by consuming the underscore, so no backtracking
case is lost.) -/
def test_0x (s : Str) : Bool :=
  match s with
  | '_' :: rest => startsWith0xCI rest
  | _ => startsWith0xCI s

/-- `s.replace(/^_/, "")`: strip one leading underscore if present. -/
def stripLeadingUnderscore : Str → Str
  | '_' :: rest => rest
  | s => s

/-- One segment of the PascalCase rebuild:
`(p) => p[0]?.toUpperCase() + p.slice(1)` (app.js line 71).  The segments
reaching it are non-empty because of the preceding `.filter(Boolean)`; on the
empty list we return the empty list (never reached from `rawToPascal`). -/
def capSeg : Str → Str
  | [] => []
  | c :: rest => jsCharToUpper c :: rest

/-- `rawToPascal` (app.js lines 63-73):

```js
function rawToPascal(raw) {
    if (!raw) return "";
    if (/^_?0x/i.test(raw)) return raw; // hash-style name, keep
    raw = raw.replace(/^_/, "");
    return raw
        .toLowerCase()
        .split("_")
        .filter(Boolean)
        .map((p) => p[0]?.toUpperCase() + p.slice(1))
        .join("");
}
```
`"".split("_")` is `[""]`, matching `List.splitOn` on `[]`. -/
def rawToPascal (raw : Str) : Str :=
  if raw = [] then []
  else if test_0x raw then raw
  else
    ((((jsToLower (stripLeadingUnderscore raw)).splitOn '_').filter
        (fun p => p ≠ [])).map capSeg).flatten

/-- The display-name transform as the specification words it (claims C1/C2):
"strip a single leading underscore if present, lower-case the remainder,
split on underscore, drop empty segments, upper-case the first character of
each segment, and concatenate with no separator".  Unlike `rawToPascal` it
has no guard at all. -/
def specPascalTransform (raw : Str) : Str :=
  ((((jsToLower (stripLeadingUnderscore raw)).splitOn '_').filter
      (fun p => p ≠ [])).map capSeg).flatten

/-- The "hash-style pattern" as the specification words it (claims C2/C9):
an optional leading underscore, then `0x` followed by hex digits
(at least one, as in the source regex `0x[0-9a-f]+`), case-insensitive. -/
def specHashStyle (s : Str) : Bool :=
  match s with
  | '_' :: '0' :: x :: d :: _ => (x == 'x' || x == 'X') && isHexDigitCI d
  | '0' :: x :: d :: _ => (x == 'x' || x == 'X') && isHexDigitCI d
  | _ => false

/-- A flattened entry as produced by `flatten` (app.js lines 154-163), with
the computed fields the claims are about.  The untouched pass-through fields
of the spread `...n` (description, params, results, …) feed only into
`searchText` here and are not re-modelled as separate fields. -/
structure NEntry where
  ns : Str
  hash : Str
  name : Str
  apiset : Str
  luaName : Str
  exMap : List (Str × Str)
  searchText : Str
deriving DecidableEq, Repr

/-- The Query Engine: the filtering part of `renderList` (app.js lines
214-223):

```js
const q = (elQ.value || "").trim().toLowerCase();
const filtered = items.filter((n) => {
    if (elApi.value !== "all" && n.apiset !== elApi.value) return false;
    if (elNs.value !== "all" && n.ns !== elNs.value) return false;
    if (q && !n.searchText.includes(q)) return false;
    return true;
});
```
`String.prototype.includes` is substring containment, i.e. list infix. -/
def renderListFilter (items : List NEntry) (qRaw apiSel nsSel : Str) :
    List NEntry :=
  items.filter fun n =>
    if apiSel ≠ S "all" ∧ n.apiset ≠ apiSel then false
    else if nsSel ≠ S "all" ∧ n.ns ≠ nsSel then false
    else if jsToLower (jsTrim qRaw) ≠ [] ∧
        ¬ (jsToLower (jsTrim qRaw) <:+: n.searchText) then false
    else true

/-- The Query Engine's matching rules as the specification words them
(claim C1): API-set equals the selector or the selector is `"all"`;
namespace equals the selector or `"all"`; the trimmed lower-cased query is a
substring of the entry's `searchText`, an empty query matching everything. -/
def specMatches (qRaw apiSel nsSel : Str) (n : NEntry) : Bool :=
  (apiSel == S "all" || n.apiset == apiSel) &&
  (nsSel == S "all" || n.ns == nsSel) &&
  (jsToLower (jsTrim qRaw) == [] ||
    decide (jsToLower (jsTrim qRaw) <:+: n.searchText))

/-- `unique` (app.js lines 392-394): `[...new Set(arr)]`.  A JS `Set`
iterates in insertion order, so the first occurrence of each value is kept.
The accumulator holds the values seen so far. -/
def uniqueAux (seen : List Str) : List Str → List Str
  | [] => []
  | x :: xs => if x ∈ seen then uniqueAux seen xs else x :: uniqueAux (x :: seen) xs

/-- `unique(arr)` (app.js line 392). -/
def unique (l : List Str) : List Str := uniqueAux [] l

/-- Distinct-namespace derivation (app.js line 410):

```js
const namespaces = unique(items.map(n => n.ns).filter(Boolean)).sort((a, b) => a.localeCompare(b));
```
`filter(Boolean)` keeps exactly the non-empty strings.  `localeCompare`
implements a host/locale-defined total preorder; it is modelled abstractly
as the relation `r` (`r a b` standing for `a.localeCompare(b) <= 0`), and
`Array.prototype.sort` (a stable sort per ES2019) as stable insertion
sort with respect to `r`. -/
def distinctNamespaces (r : Str → Str → Prop) [DecidableRel r]
    (items : List NEntry) : List Str :=
  List.insertionSort r (unique ((items.map NEntry.ns).filter (fun s => s ≠ [])))

/-- The page address as the Deep-Link Codec sees it: `location.hash` (the
fragment, including its leading `#`, or `""` when absent) and the ordered
list of query parameters of `new URL(location.href).searchParams`. -/
structure Address where
  fragment : Str
  searchParams : List (Str × Str)
deriving DecidableEq, Repr

/-- The capture group `(0x[0-9a-f]+)` of the fragment regex, anchored to the
end of the input (`$`): `0`, then `x`/`X`, then at least one hex digit and
nothing else.  Returns the token with its original case preserved. -/
def matchHash0xToken : Str → Option Str
  | '0' :: x :: ds =>
    if (x == 'x' || x == 'X') && !ds.isEmpty && ds.all isHexDigitCI then
      some ('0' :: x :: ds)
    else none
  | _ => none

/-- The full-anchored match `raw.match(/^#_?(0x[0-9a-f]+)$/i)`, returning
capture group 1.  The token must start with `0`, so when the fragment
continues with `_` the regex can only match by consuming the underscore. -/
def matchHashFragment (raw : Str) : Option Str :=
  match raw with
  | '#' :: '_' :: rest => matchHash0xToken rest
  | '#' :: rest => matchHash0xToken rest
  | _ => none

/-- `parseHashFragment` (app.js lines 169-173):

```js
const raw = (location.hash || "").trim();
const m = raw.match(/^#_?(0x[0-9a-f]+)$/i);
return m ? m[1] : null;
```
-/
def parseHashFragment (addr : Address) : Option Str :=
  matchHashFragment (jsTrim addr.fragment)

/-- `parseDeepLink` (app.js lines 175-191): fragment first, then the first
query parameter whose **name** passes `/^_?0x/i`, then the first parameter
named `hash` whose value passes `/^0x/i` (an absent or empty value is
falsy and rejected, which `startsWith0xCI` also rejects). -/
def parseDeepLink (addr : Address) : Option Str :=
  match parseHashFragment addr with
  | some t => some t
  | none =>
    match addr.searchParams.find? (fun kv => test_0x kv.1) with
    | some kv => some (stripLeadingUnderscore kv.1)
    | none =>
      match addr.searchParams.find? (fun kv => kv.1 == S "hash") with
      | some kv => if startsWith0xCI kv.2 then some kv.2 else none
      | none => none

/-- `URLSearchParams.set(k, v)`: replace the value of the first parameter
named `k` and drop any later parameters of that name; if none exists,
append `(k, v)` at the end. -/
def jsParamsSet (ps : List (Str × Str)) (k v : Str) : List (Str × Str) :=
  match ps with
  | [] => [(k, v)]
  | kv :: rest =>
    if kv.1 = k then (k, v) :: rest.filter (fun kv2 => kv2.1 ≠ k)
    else kv :: jsParamsSet rest k v

/-- `setDeepLink` (app.js lines 193-202):

```js
const url = new URL(location.href);
for (const k of [...url.searchParams.keys()]) {
    if (/^_?0x/i.test(k) || k === "hash") url.searchParams.delete(k);
}
url.searchParams.set(`_${hash}`, "");
history.replaceState(null, "", url.toString());
```
`delete` removes every parameter of that name, so the loop is a filter over
a snapshot of the keys.  `history.replaceState` keeps the fragment of the
URL (which `setDeepLink` never touches). -/
def setDeepLink (addr : Address) (hash : Str) : Address :=
  Address.mk addr.fragment
    (jsParamsSet
      (addr.searchParams.filter (fun kv => ¬ (test_0x kv.1 ∨ kv.1 = S "hash")))
      ('_' :: hash) [])

/-- A JavaScript value, as far as the loosely-shaped input JSON is concerned:
the JSON shapes plus `undefined` (absent property). -/
inductive JSVal where
  | null
  | undefined
  | bool (b : Bool)
  | num (n : Int)
  | str (s : Str)
  | arr (elems : List JSVal)
  | obj (fields : List (Str × JSVal))

/-- JS truthiness: `null`, `undefined`, `false`, `0` and `""` are falsy;
every object (including `{}` and `[]`) is truthy.  (`NaN`, the remaining
falsy value, has no counterpart in the integer model.) -/
def truthy : JSVal → Bool
  | .null => false
  | .undefined => false
  | .bool b => b
  | .num n => n != 0
  | .str s => !s.isEmpty
  | .arr _ => true
  | .obj _ => true

/-- `a || b`. -/
def jsOr (a b : JSVal) : JSVal := if truthy a then a else b

/-- Whether the value is a plain object (`{…}`). -/
def JSVal.isObj : JSVal → Bool
  | .obj _ => true
  | _ => false

/-- Decimal digits of a natural number, as JS would render an array/string
index. -/
def natToStr (n : Nat) : Str := (toString n).data

/-- A canonical array-index string: non-empty, all decimal digits, no
leading zero (except `"0"` itself).  Property names of this shape address
the indexed elements of strings and arrays. -/
def parseIndex (k : Str) : Option Nat :=
  if k = [] then none
  else if k.all (fun c => 48 ≤ c.toNat && c.toNat ≤ 57) then
    if k ≠ ['0'] ∧ k.head? = some '0' then none
    else some (k.foldl (fun a c => a * 10 + (c.toNat - 48)) 0)
  else none

/-- Property read `v[k]`, yielding `undefined` when absent.  Objects carry
their own properties; strings and arrays expose their indexed elements
(`"ab"["0"] === "a"`); every other base value has none of the properties
the source reads (`hash`, `name`, `apiset`, …). -/
def getField (v : JSVal) (k : Str) : JSVal :=
  match v with
  | .obj fields =>
    match fields.find? (fun f => f.1 == k) with
    | some f => f.2
    | none => .undefined
  | .arr es =>
    match parseIndex k with
    | some i => match es[i]? with | some e => e | none => .undefined
    | none => .undefined
  | .str s =>
    match parseIndex k with
    | some i => match s[i]? with | some c => .str [c] | none => .undefined
    | none => .undefined
  | _ => .undefined

/-- `Object.entries(v)`: an object's own enumerable string-keyed properties
in order; for strings and arrays the index/element pairs; `[]` for every
other base value (`Object.entries(5)`, `Object.entries(true)` are `[]`). -/
def jsEntries (v : JSVal) : List (Str × JSVal) :=
  match v with
  | .obj fields => fields
  | .arr es => es.enum.map (fun p => (natToStr p.1, p.2))
  | .str s => s.enum.map (fun p => (natToStr p.1, JSVal.str [p.2]))
  | _ => []

/-- String coercion of a base value, as performed by template literals and
`Array.prototype.join`.  Nested arrays/objects in string position do not
occur in the claims' inputs; arrays join their shallowly-coerced elements
with `,` (with `null`/`undefined` rendered empty), and a plain object
renders as `[object Object]`. -/
def jsToStringAtom : JSVal → Str
  | .null => S "null"
  | .undefined => S "undefined"
  | .bool true => S "true"
  | .bool false => S "false"
  | .num n => (toString n).data
  | .str s => s
  | .arr _ => S ""
  | .obj _ => S "[object Object]"

/-- String coercion (one level deep for arrays). -/
def jsToString : JSVal → Str
  | .arr es =>
    List.intercalate (S ",") (es.map (fun e => match e with
      | .null => ([] : Str)
      | .undefined => ([] : Str)
      | e => jsToStringAtom e))
  | v => jsToStringAtom v

/-- The idiom `v || ""` (resp. `v || default`) followed by use of the result
in string position: the value coerced to a string when truthy, the default
otherwise.  (A truthy value that is not a string would make the source throw
where a string method such as `.toLowerCase()` is then called on it; the
coercion here totalises those unreachable-for-the-claims cases.) -/
def jsStrOr (v : JSVal) (d : Str) : Str :=
  if truthy v then jsToString v else d

/-- `normalizeApiSet` (app.js lines 75-78):

```js
function normalizeApiSet(n) {
    return (n.apiset || "client").toLowerCase();
}
```
-/
def normalizeApiSet (n : JSVal) : Str :=
  jsToLower (jsStrOr (getField n (S "apiset")) (S "client"))

/-- `Map.prototype.set`: overwrite the value of an existing key in place,
else append; insertion order is preserved. -/
def mapSet (m : List (Str × Str)) (k v : Str) : List (Str × Str) :=
  match m with
  | [] => [(k, v)]
  | kv :: rest => if kv.1 = k then (k, v) :: rest else kv :: mapSet rest k v

/-- `toExamplesMap` (app.js lines 80-92): accept only an array; skip falsy
elements and plain strings; skip elements whose lower-cased `lang` is empty;
map `lang` to `code` (empty when missing), later entries overwriting. -/
def toExamplesMap (v : JSVal) : List (Str × Str) :=
  match v with
  | .arr exs =>
    exs.foldl (fun m ex =>
      if !truthy ex then m
      else match ex with
        | .str _ => m
        | _ =>
          let lang := jsToLower (jsStrOr (getField ex (S "lang")) [])
          if lang = [] then m
          else mapSet m lang (jsStrOr (getField ex (S "code")) [])) []
  | _ => []

/-- The parameter block of `searchText` (app.js line 150):
`(n.params || []).map((p) => \x7b...`name type description`...\x7d).join(" ")`
with each of `p.name`, `p.type`, `p.description` defaulted to `""`.
Only an actual array has a `.map`; `n.params || []` otherwise yields `[]`
for the falsy values (a truthy non-array would make the source throw). -/
def paramsSearchText (v : JSVal) : Str :=
  List.intercalate (S " ") ((match v with | .arr es => es | _ => []).map (fun p =>
    jsStrOr (getField p (S "name")) [] ++ [' '] ++
    jsStrOr (getField p (S "type")) [] ++ [' '] ++
    jsStrOr (getField p (S "description")) []))

/-- The body of the inner loop of `flatten` (app.js lines 140-163) for one
namespace key `ns`, one entry key `hashKey` and one payload `n0`:
`const n = n0 || {};` then the computed fields.  Note `searchText` uses the
**outer** namespace `ns` while the entry's `ns` field is `n.ns || ns`. -/
def normEntry (ns hashKey : Str) (n0 : JSVal) : NEntry :=
  let n := jsOr n0 (.obj [])
  let hash := jsStrOr (getField n (S "hash")) hashKey
  let name := jsStrOr (getField n (S "name")) []
  let apiset := normalizeApiSet n
  let luaName := rawToPascal name
  let exMap := toExamplesMap (getField n (S "examples"))
  let searchText := jsToLower (List.intercalate (S "\n") [name, luaName, hash, ns,
    jsStrOr (getField n (S "description")) [],
    paramsSearchText (getField n (S "params")),
    jsStrOr (getField n (S "results")) [],
    jsStrOr (getField n (S "resultsDescription")) []])
  NEntry.mk (jsStrOr (getField n (S "ns")) ns) hash name apiset luaName exMap
    searchText

/-- `flatten` (app.js lines 137-167): iterate `Object.entries(db || {})`,
then `Object.entries(entries || {})` within each namespace, building one
flattened entry per payload. -/
def flatten (db : JSVal) : List NEntry :=
  (jsEntries (jsOr db (.obj []))).flatMap (fun p =>
    (jsEntries (jsOr p.2 (.obj []))).map (fun q => normEntry p.1 q.1 q.2))

/-- A hash-style token exactly, as the specification defines it:
`0x` plus at least one hex digit (case-insensitive), nothing else. -/
def specIsHashToken : Str → Bool
  | '0' :: x :: ds => (x == 'x' || x == 'X') && !ds.isEmpty && ds.all isHexDigitCI
  | _ => false

/-- Rules (2)-(4) of claim C3 (the query-parameter rules): the first
parameter whose name matches the optional-underscore-plus-hash-style
pattern (`specHashStyle`, which demands a hex digit) yields the name with
the underscore stripped; else a parameter literally named `hash` whose
value starts with `0x` yields that value; else null. -/
def specDecodeClaimParams (addr : Address) : Option Str :=
  match addr.searchParams.find? (fun kv => specHashStyle kv.1) with
  | some kv => some (stripLeadingUnderscore kv.1)
  | none =>
    match addr.searchParams.find?
        (fun kv => kv.1 == S "hash" && decide ('0' :: 'x' :: [] <+: kv.2)) with
    | some kv => some kv.2
    | none => none

/-- Deep-link decoding exactly as claim C3 words it: (1) a fragment of the
form `#`, optional `_`, then a hash-style token yields the token;
(2)-(4) the query-parameter rules `specDecodeClaimParams`. -/
def specDecodeClaim (addr : Address) : Option Str :=
  match addr.fragment with
  | '#' :: '_' :: rest =>
    if specIsHashToken rest then some rest else specDecodeClaimParams addr
  | '#' :: rest =>
    if specIsHashToken rest then some rest else specDecodeClaimParams addr
  | _ => specDecodeClaimParams addr

/-- Deep-link decoding as amended: the same first-match-wins precedence,
with the source's actual guards — the fragment is trimmed of surrounding
whitespace before matching `#`, optional `_`, then a full hash-style token;
the parameter-**name** rule requires only optional underscore plus `0x`
(case-insensitive, no hex digit needed); and the `hash` rule uses the first
parameter of that name and accepts a value whose `0x` start is matched
case-insensitively. -/
def specDecodeAmended (addr : Address) : Option Str :=
  match matchHashFragment (jsTrim addr.fragment) with
  | some t => some t
  | none =>
    match addr.searchParams.find? (fun kv => test_0x kv.1) with
    | some kv => some (stripLeadingUnderscore kv.1)
    | none =>
      match addr.searchParams.find? (fun kv => kv.1 == S "hash") with
      | some kv => if startsWith0xCI kv.2 then some kv.2 else none
      | none => none

/-! ### Supporting lemmas -/

/-- Lower-casing never changes whether a character is whitespace: the ASCII
whitespace characters are not upper-case letters, and the image of an
upper-case letter lies in `97..122`, outside the whitespace code points. -/
theorem jsIsWhitespace_jsCharToLower (c : Char) :
    jsIsWhitespace (jsCharToLower c) = jsIsWhitespace c := by
  unfold jsCharToLower
  split
  · rename_i h
    obtain ⟨h1, h2⟩ := h
    have hws : jsIsWhitespace c = false := by
      unfold jsIsWhitespace
      simp only [Bool.or_eq_false_iff, beq_eq_false_iff_ne]
      omega
    rw [hws]
    generalize hg : c.toNat = t at h1 h2
    interval_cases t <;> decide
  · rfl

/-- `toLowerCase` commutes with dropping leading whitespace. -/
theorem dropWhile_ws_jsToLower (s : Str) :
    (jsToLower s).dropWhile jsIsWhitespace = jsToLower (s.dropWhile jsIsWhitespace) := by
  unfold jsToLower
  rw [List.dropWhile_map]
  have hp : (jsIsWhitespace ∘ jsCharToLower) = jsIsWhitespace := by
    funext c
    exact jsIsWhitespace_jsCharToLower c
  rw [hp]

/-- `toLowerCase` commutes with `trim`. -/
theorem jsTrim_jsToLower (s : Str) : jsTrim (jsToLower s) = jsToLower (jsTrim s) := by
  have hrev : ∀ t : Str, (jsToLower t).reverse = jsToLower t.reverse := by
    intro t
    unfold jsToLower
    rw [List.map_reverse]
  unfold jsTrim
  rw [dropWhile_ws_jsToLower, hrev, dropWhile_ws_jsToLower, hrev]

/-! ### Claim C1 — the Query Engine is the spec's predicate filter -/

/-- **C1** (confirmed).  For every flattened collection and every triple of
filter criteria, the Query Engine returns exactly the entries satisfying the
three spec predicates ANDed (`specMatches`), as an order-preserving
subsequence of the input: no entry is reordered, duplicated, or added. -/
theorem C1_queryEngine_filters_by_spec (items : List NEntry) (qRaw apiSel nsSel : Str) :
    renderListFilter items qRaw apiSel nsSel = items.filter (specMatches qRaw apiSel nsSel) ∧
    (renderListFilter items qRaw apiSel nsSel).Sublist items := by
  constructor
  · unfold renderListFilter
    apply List.filter_congr
    intro n _
    unfold specMatches
    by_cases h1 : apiSel = S "all" <;> by_cases h2 : n.apiset = apiSel <;>
      by_cases h3 : nsSel = S "all" <;> by_cases h4 : n.ns = nsSel <;>
      by_cases h5 : jsToLower (jsTrim qRaw) = [] <;>
      by_cases h6 : jsToLower (jsTrim qRaw) <:+: n.searchText <;>
      simp [h1, h2, h3, h4, h5, h6]
  · unfold renderListFilter
    exact List.filter_sublist _

/-! ### Claim C7 — free-text filtering is case-insensitive -/

/-- **C7** (confirmed).  Queries that differ only in letter case (equal
after lower-casing) produce identical filtered sequences under the same
API-set and namespace selectors. -/
theorem C7_queryFilter_case_insensitive (items : List NEntry) (q₁ q₂ apiSel nsSel : Str)
    (h : jsToLower q₁ = jsToLower q₂) :
    renderListFilter items q₁ apiSel nsSel = renderListFilter items q₂ apiSel nsSel := by
  have key : jsToLower (jsTrim q₁) = jsToLower (jsTrim q₂) := by
    rw [← jsTrim_jsToLower, ← jsTrim_jsToLower, h]
  unfold renderListFilter
  rw [key]

/-- Witness for C7 at a concrete collection: `"PED"` and `"ped"` filter the
one-entry collection identically. -/
theorem C7_witness :
    renderListFilter [NEntry.mk (S "PLAYER") (S "0x1") (S "GET_PED") (S "client")
        (S "GetPed") [] (S "get_ped getped 0x1 player ped")] (S "PED") (S "all") (S "all") =
      renderListFilter [NEntry.mk (S "PLAYER") (S "0x1") (S "GET_PED") (S "client")
        (S "GetPed") [] (S "get_ped getped 0x1 player ped")] (S "ped") (S "all") (S "all") :=
  C7_queryFilter_case_insensitive _ (S "PED") (S "ped") (S "all") (S "all") (by decide)

/-! ### Claim C2 — the non-hash display-name transform -/

/-- **C2 counterexample.**  The claim quantifies over identifiers that do
not match the hash-style pattern (which requires at least one hex digit
after `0x`), but the source guard `/^_?0x/i` requires no digit: `"_0x"` is
not hash-style, yet `rawToPascal` keeps it unchanged instead of applying
the spelling transform (which would yield `"0x"`). -/
theorem C2_counterexample :
    specHashStyle (S "_0x") = false ∧
    rawToPascal (S "_0x") ≠ specPascalTransform (S "_0x") ∧
    rawToPascal (S "_0x") = S "_0x" ∧ specPascalTransform (S "_0x") = S "0x" := by
  decide

/-- **C2 amended** (proved).  For every raw identifier that does not start
with an optional underscore followed by `0x` (case-insensitive, no hex
digit required — the source's actual guard), the display-name transform is
the spec's strip/lower-case/split/capitalize/concatenate pipeline; in
particular `_get_player_ped` and `_get_PLAYER_ped` both map to
`GetPlayerPed`. -/
theorem C2_rawToPascal_amended :
    (∀ raw : Str, test_0x raw = false → rawToPascal raw = specPascalTransform raw) ∧
    rawToPascal (S "_get_player_ped") = S "GetPlayerPed" ∧
    rawToPascal (S "_get_PLAYER_ped") = S "GetPlayerPed" := by
  refine ⟨?_, by decide, by decide⟩
  intro raw h
  by_cases hnil : raw = []
  · subst hnil
    decide
  · simp [rawToPascal, specPascalTransform, hnil, h]

/-- Witness for C2 (amended) at a concrete non-hash identifier. -/
theorem C2_witness :
    test_0x (S "get_player_ped") = false ∧
    rawToPascal (S "get_player_ped") = specPascalTransform (S "get_player_ped") :=
  ⟨by decide, C2_rawToPascal_amended.1 (S "get_player_ped") (by decide)⟩

/-! ### Claim C9 — hash-style identifiers are kept verbatim -/

/-- **C9** (confirmed).  Every raw identifier matching the hash-style
pattern (optional underscore, `0x`, at least one hex digit,
case-insensitive) is returned unchanged by the display-name transform:
such an identifier in particular passes the source's weaker `/^_?0x/i`
guard. -/
theorem C9_rawToPascal_id_on_hashStyle (raw : Str) (h : specHashStyle raw = true) :
    rawToPascal raw = raw := by
  unfold specHashStyle at h
  split at h
  · rename_i x d rest
    rw [Bool.and_eq_true] at h
    simp [rawToPascal, test_0x, startsWith0xCI, h.1]
  · rename_i x d rest
    rw [Bool.and_eq_true] at h
    simp [rawToPascal, test_0x, startsWith0xCI, h.1]
  · exact absurd h (by decide)

/-- Witness for C9 at a concrete hash-style identifier. -/
theorem C9_witness :
    specHashStyle (S "_0xAB12") = true ∧ rawToPascal (S "_0xAB12") = S "_0xAB12" :=
  ⟨by decide, C9_rawToPascal_id_on_hashStyle (S "_0xAB12") (by decide)⟩

/-! ### Claim C5 — API-set normalization -/

/-- **C5** (confirmed).  For every payload whose `apiset` field is a string
or absent (the shapes the data model allows for this optional tag), the
normalized API set is the lower-cased field when present and non-empty, is
`"client"` when the field is absent or empty, and is never the empty
string. -/
theorem C5_normalizeApiSet_spec (n : JSVal)
    (h : getField n (S "apiset") = JSVal.undefined ∨
         ∃ s : Str, getField n (S "apiset") = JSVal.str s) :
    normalizeApiSet n ≠ [] ∧
    (∀ s : Str, getField n (S "apiset") = JSVal.str s → s ≠ [] →
      normalizeApiSet n = jsToLower s) ∧
    ((getField n (S "apiset") = JSVal.undefined ∨ getField n (S "apiset") = JSVal.str []) →
      normalizeApiSet n = S "client") := by
  have hclient : jsToLower (S "client") = S "client" := by decide
  rcases h with hu | ⟨s, hs⟩
  · refine ⟨?_, ?_, ?_⟩
    · unfold normalizeApiSet
      rw [hu]
      decide
    · intro s hs
      rw [hu] at hs
      exact absurd hs (by simp)
    · intro _
      unfold normalizeApiSet
      rw [hu]
      decide
  · by_cases hn : s = []
    · subst hn
      refine ⟨?_, ?_, ?_⟩
      · unfold normalizeApiSet
        rw [hs]
        decide
      · intro s' hs' hne
        rw [hs] at hs'
        injection hs' with he
        exact absurd he.symm hne
      · intro _
        unfold normalizeApiSet
        rw [hs]
        decide
    · have hval : normalizeApiSet n = jsToLower s := by
        unfold normalizeApiSet jsStrOr
        rw [hs]
        have ht : truthy (JSVal.str s) = true := by
          simp [truthy, List.isEmpty_iff, hn]
        rw [ht]
        rfl
      refine ⟨?_, ?_, ?_⟩
      · rw [hval]
        unfold jsToLower
        simp [hn]
      · intro s' hs' _
        rw [hs] at hs'
        injection hs' with he
        rw [← he]
        exact hval
      · intro habs
        rcases habs with habs | habs <;> rw [hs] at habs
        · exact absurd habs (by simp)
        · injection habs with he
          exact absurd he hn

/-- Witness for C5: a payload with `apiset: "Server"` normalizes to its
lower-cased value, and the result is non-empty. -/
theorem C5_witness :
    normalizeApiSet (JSVal.obj [(S "apiset", JSVal.str (S "Server"))]) ≠ [] ∧
    normalizeApiSet (JSVal.obj [(S "apiset", JSVal.str (S "Server"))]) =
      jsToLower (S "Server") :=
  ⟨(C5_normalizeApiSet_spec (JSVal.obj [(S "apiset", JSVal.str (S "Server"))])
      (Or.inr ⟨S "Server", rfl⟩)).1,
   (C5_normalizeApiSet_spec (JSVal.obj [(S "apiset", JSVal.str (S "Server"))])
      (Or.inr ⟨S "Server", rfl⟩)).2.1 (S "Server") rfl (by decide)⟩

/-! ### Claim C6 — distinct-namespace derivation -/

/-- Membership in `uniqueAux`: the elements of the input not already seen. -/
theorem mem_uniqueAux (x : Str) (l : List Str) :
    ∀ seen, x ∈ uniqueAux seen l ↔ x ∈ l ∧ x ∉ seen := by
  induction l with
  | nil =>
    intro seen
    simp [uniqueAux]
  | cons y ys ih =>
    intro seen
    unfold uniqueAux
    by_cases hy : y ∈ seen
    · rw [if_pos hy, ih seen, List.mem_cons]
      by_cases hxy : x = y
      · subst hxy
        tauto
      · tauto
    · rw [if_neg hy, List.mem_cons, ih (y :: seen), List.mem_cons, List.mem_cons]
      by_cases hxy : x = y
      · subst hxy
        tauto
      · tauto

/-- `uniqueAux` never repeats an element. -/
theorem nodup_uniqueAux (l : List Str) : ∀ seen, (uniqueAux seen l).Nodup := by
  induction l with
  | nil =>
    intro seen
    simp [uniqueAux]
  | cons y ys ih =>
    intro seen
    unfold uniqueAux
    by_cases hy : y ∈ seen
    · rw [if_pos hy]
      exact ih seen
    · rw [if_neg hy]
      refine List.nodup_cons.mpr ⟨?_, ih (y :: seen)⟩
      intro hmem
      exact ((mem_uniqueAux y ys (y :: seen)).mp hmem).2 (List.mem_cons_self y seen)

/-- **C6** (confirmed).  For every flattened collection and every total
transitive comparator `r` (the order `localeCompare` implements),
distinct-namespace derivation returns a duplicate-free sequence, sorted by
`r`, whose members are exactly the non-empty namespace values of the
collection — even when the collection repeats namespaces or contains empty
ones. -/
theorem C6_distinctNamespaces_spec (r : Str → Str → Prop) [DecidableRel r]
    (htot : ∀ a b, r a b ∨ r b a) (htrans : ∀ a b c, r a b → r b c → r a c)
    (items : List NEntry) :
    (distinctNamespaces r items).Sorted r ∧
    (distinctNamespaces r items).Nodup ∧
    (∀ s, s ∈ distinctNamespaces r items ↔ s ∈ items.map NEntry.ns ∧ s ≠ []) := by
  haveI : IsTotal Str r := ⟨htot⟩
  haveI : IsTrans Str r := ⟨htrans⟩
  unfold distinctNamespaces
  refine ⟨List.sorted_insertionSort r _, ?_, ?_⟩
  · rw [(List.perm_insertionSort r _).nodup_iff]
    exact nodup_uniqueAux _ _
  · intro s
    rw [(List.perm_insertionSort r _).mem_iff]
    unfold unique
    rw [mem_uniqueAux]
    simp [List.mem_filter]

/-- Witness for C6 with the length order as comparator and a collection
with a repeated namespace and an empty one. -/
theorem C6_witness :
    (distinctNamespaces (fun a b : Str => a.length ≤ b.length)
        [NEntry.mk (S "PLAYER") [] [] [] [] [] [], NEntry.mk [] [] [] [] [] [] [],
         NEntry.mk (S "PLAYER") [] [] [] [] [] [], NEntry.mk (S "CFX") [] [] [] [] [] []]).Sorted
      (fun a b : Str => a.length ≤ b.length) ∧
    (distinctNamespaces (fun a b : Str => a.length ≤ b.length)
        [NEntry.mk (S "PLAYER") [] [] [] [] [] [], NEntry.mk [] [] [] [] [] [] [],
         NEntry.mk (S "PLAYER") [] [] [] [] [] [], NEntry.mk (S "CFX") [] [] [] [] [] []]).Nodup ∧
    (∀ s, s ∈ distinctNamespaces (fun a b : Str => a.length ≤ b.length)
        [NEntry.mk (S "PLAYER") [] [] [] [] [] [], NEntry.mk [] [] [] [] [] [] [],
         NEntry.mk (S "PLAYER") [] [] [] [] [] [], NEntry.mk (S "CFX") [] [] [] [] [] []] ↔
      s ∈ ([NEntry.mk (S "PLAYER") [] [] [] [] [] [], NEntry.mk [] [] [] [] [] [] [],
         NEntry.mk (S "PLAYER") [] [] [] [] [] [], NEntry.mk (S "CFX") [] [] [] [] [] []].map
          NEntry.ns) ∧ s ≠ []) :=
  C6_distinctNamespaces_spec (fun a b : Str => a.length ≤ b.length)
    (fun a b => Nat.le_total a.length b.length)
    (fun _ _ _ hab hbc => Nat.le_trans hab hbc) _

/-! ### Claim C8 — malformed input is absorbed by defaulting -/

/-- **C8 counterexample.**  A non-empty string is not a proper nested
mapping, yet `Object.entries` enumerates its characters, so flattening the
`RawDataset` `"a"` yields a (defaulted) entry rather than the empty
collection the claim promises. -/
theorem C8_counterexample :
    (JSVal.str (S "a")).isObj = false ∧ flatten (JSVal.str (S "a")) ≠ [] := by
  decide

/-- **C8 amended** (proved).  A payload entry that is not an object is
normalized exactly as the empty object (all fields default); and a
`RawDataset` that is `null`, `undefined`, a boolean, a number, or the empty
string flattens to the empty collection.  (A non-empty string — and
likewise an array — is enumerated index-by-index instead, see
`C8_counterexample`.) -/
theorem C8_flatten_defaulting_amended :
    (∀ (ns hashKey : Str) (v : JSVal), v.isObj = false →
      normEntry ns hashKey v = normEntry ns hashKey (JSVal.obj [])) ∧
    flatten JSVal.null = [] ∧ flatten JSVal.undefined = [] ∧
    (∀ b, flatten (JSVal.bool b) = []) ∧
    (∀ k : Int, flatten (JSVal.num k) = []) ∧
    flatten (JSVal.str []) = [] := by
  have hnum : ∀ k : Int, k ≠ 0 → jsOr (JSVal.num k) (JSVal.obj []) = JSVal.num k := by
    intro k hk
    simp [jsOr, truthy, hk]
  refine ⟨?_, rfl, rfl, ?_, ?_, rfl⟩
  · intro ns hashKey v hv
    cases v with
    | null => rfl
    | undefined => rfl
    | bool b => cases b <;> rfl
    | num k =>
      by_cases hk : k = 0
      · subst hk
        rfl
      · simp only [normEntry, hnum k hk]
        rfl
    | str s => cases s <;> rfl
    | arr es => rfl
    | obj fields => exact absurd hv (by simp [JSVal.isObj])
  · intro b
    cases b <;> rfl
  · intro k
    by_cases hk : k = 0
    · subst hk
      rfl
    · simp only [flatten, hnum k hk]
      rfl

/-- Witness for C8 (amended): a numeric payload is normalized like the
empty object, and a numeric dataset flattens to nothing. -/
theorem C8_witness :
    normEntry (S "CFX") (S "0x1") (JSVal.num 7) =
      normEntry (S "CFX") (S "0x1") (JSVal.obj []) ∧
    flatten (JSVal.num 7) = [] :=
  ⟨C8_flatten_defaulting_amended.1 (S "CFX") (S "0x1") (JSVal.num 7) rfl,
   C8_flatten_defaulting_amended.2.2.2.2.1 7⟩

/-! ### Claim C3 — deep-link decoding precedence -/

/-- **C3 counterexample.**  The parameter name `"_0x"` carries no hex
digit, so under the claim's rules no rule fires and decoding should yield
null; the source's `/^_?0x/i` guard fires anyway and yields `0x`. -/
theorem C3_counterexample :
    specDecodeClaim (Address.mk [] [(S "_0x", [])]) = none ∧
    parseDeepLink (Address.mk [] [(S "_0x", [])]) = some (S "0x") := by
  decide

/-- **C3 amended** (proved).  For every address, `parseDeepLink` implements
exactly the amended first-match-wins precedence `specDecodeAmended`. -/
theorem C3_parseDeepLink_amended (addr : Address) :
    parseDeepLink addr = specDecodeAmended addr := rfl

/-! ### Claim C4 — deep-link round-trip -/

/-- **C4 counterexample.**  `setDeepLink` never clears the address
fragment, and decoding consults the fragment first: an address arriving
with fragment `#0xd` still decodes to `0xd` after `0xABCD1234` is encoded
into it. -/
theorem C4_counterexample :
    parseDeepLink (setDeepLink (Address.mk (S "#0xd") [(S "foo", S "bar")])
        (S "0xABCD1234")) = some (S "0xd") ∧
    parseDeepLink (setDeepLink (Address.mk (S "#0xd") [(S "foo", S "bar")])
        (S "0xABCD1234")) ≠ some (S "0xABCD1234") := by
  decide

/-- `URLSearchParams.set` appends when no parameter has the given name. -/
theorem jsParamsSet_append (k v : Str) (ps : List (Str × Str))
    (h : ∀ kv ∈ ps, kv.1 ≠ k) : jsParamsSet ps k v = ps ++ [(k, v)] := by
  induction ps with
  | nil => rfl
  | cons kv rest ih =>
    unfold jsParamsSet
    rw [if_neg (h kv (List.mem_cons_self kv rest)),
      ih (fun kv2 hm => h kv2 (List.mem_cons_of_mem kv hm))]
    rfl

/-- **C4 amended** (proved).  For every address whose (trimmed) fragment is
not a hash-style fragment, encoding the key `0xABCD1234` removes exactly
the parameters whose name matches `/^_?0x/i` or equals `hash`, keeps every
other parameter in place with its value, appends `_0xABCD1234` with an
empty value, and decoding the result yields `0xABCD1234`, case
preserved. -/
theorem C4_roundTrip_amended (addr : Address)
    (h : parseHashFragment addr = none) :
    parseDeepLink (setDeepLink addr (S "0xABCD1234")) = some (S "0xABCD1234") ∧
    (setDeepLink addr (S "0xABCD1234")).searchParams =
      addr.searchParams.filter (fun kv => ¬ (test_0x kv.1 ∨ kv.1 = S "hash")) ++
        [('_' :: S "0xABCD1234", [])] := by
  have hset : (setDeepLink addr (S "0xABCD1234")).searchParams =
      addr.searchParams.filter (fun kv => ¬ (test_0x kv.1 ∨ kv.1 = S "hash")) ++
        [('_' :: S "0xABCD1234", [])] := by
    unfold setDeepLink
    apply jsParamsSet_append
    intro kv hm hk
    have hp := (List.mem_filter.mp hm).2
    rw [hk] at hp
    exact absurd (of_decide_eq_true hp) (by decide)
  refine ⟨?_, hset⟩
  unfold parseDeepLink
  have hfrag : parseHashFragment (setDeepLink addr (S "0xABCD1234")) = none := h
  rw [hfrag]
  have hnone : (addr.searchParams.filter
      (fun kv => ¬ (test_0x kv.1 ∨ kv.1 = S "hash"))).find?
      (fun kv => test_0x kv.1) = none := by
    rw [List.find?_eq_none]
    intro kv hm
    have hp := of_decide_eq_true (List.mem_filter.mp hm).2
    intro ht
    exact hp (Or.inl ht)
  rw [hset, List.find?_append, hnone]
  rfl

/-- Witness for C4 (amended) at an address with an unrelated `foo=bar`
parameter, a stale `_0xOLD` selection and no fragment. -/
theorem C4_witness :
    parseDeepLink (setDeepLink (Address.mk [] [(S "foo", S "bar"), (S "_0xOLD", [])])
        (S "0xABCD1234")) = some (S "0xABCD1234") ∧
    (setDeepLink (Address.mk [] [(S "foo", S "bar"), (S "_0xOLD", [])])
        (S "0xABCD1234")).searchParams =
      ([(S "foo", S "bar"), (S "_0xOLD", [])] : List (Str × Str)).filter
          (fun kv => ¬ (test_0x kv.1 ∨ kv.1 = S "hash")) ++
        [('_' :: S "0xABCD1234", [])] :=
  C4_roundTrip_amended (Address.mk [] [(S "foo", S "bar"), (S "_0xOLD", [])]) (by decide)

/-! ### Claim C10 — every decoded key is a `0x`-token, never underscored -/

/-- Anything `startsWith0xCI` accepts starts with `0` then `x` or `X`. -/
theorem startsWith0xCI_shape (s : Str) (h : startsWith0xCI s = true) :
    ∃ x rest, s = '0' :: x :: rest ∧ (x = 'x' ∨ x = 'X') := by
  unfold startsWith0xCI at h
  split at h
  · rename_i c rest
    rw [Bool.or_eq_true] at h
    rcases h with hx | hx
    · exact ⟨c, rest, rfl, Or.inl (by simpa using hx)⟩
    · exact ⟨c, rest, rfl, Or.inr (by simpa using hx)⟩
  · exact absurd h (by decide)

/-- The fragment capture group starts with `0` then `x`/`X`. -/
theorem matchHash0xToken_shape (s t : Str) (h : matchHash0xToken s = some t) :
    ∃ x rest, t = '0' :: x :: rest ∧ (x = 'x' ∨ x = 'X') := by
  unfold matchHash0xToken at h
  split at h
  · rename_i x ds
    split at h
    · rename_i hcond
      injection h with ht
      rw [Bool.and_eq_true, Bool.and_eq_true, Bool.or_eq_true] at hcond
      rcases hcond.1.1 with hx | hx
      · exact ⟨x, ds, ht.symm, Or.inl (by simpa using hx)⟩
      · exact ⟨x, ds, ht.symm, Or.inr (by simpa using hx)⟩
    · exact absurd h (by simp)
  · exact absurd h (by simp)

/-- **C10** (confirmed).  Whenever deep-link decoding yields a key, that
key starts with `0` followed by `x` or `X` — in particular it never begins
with an underscore. -/
theorem C10_parseDeepLink_shape (addr : Address) (r : Str)
    (h : parseDeepLink addr = some r) :
    ∃ x rest, r = '0' :: x :: rest ∧ (x = 'x' ∨ x = 'X') := by
  unfold parseDeepLink at h
  split at h
  · rename_i t heq
    injection h with ht
    subst ht
    unfold parseHashFragment matchHashFragment at heq
    split at heq
    · exact matchHash0xToken_shape _ _ heq
    · exact matchHash0xToken_shape _ _ heq
    · exact absurd heq (by simp)
  · rename_i hfrag
    split at h
    · rename_i kv hkv
      injection h with ht
      have hks := List.find?_some hkv
      unfold test_0x at hks
      subst ht
      split at hks
      · rename_i rest heq1
        obtain ⟨x, rest2, hre, hx⟩ := startsWith0xCI_shape _ hks
        refine ⟨x, rest2, ?_, hx⟩
        rw [heq1]
        exact hre
      · rename_i hnu
        obtain ⟨x, rest2, hre, hx⟩ := startsWith0xCI_shape _ hks
        refine ⟨x, rest2, ?_, hx⟩
        rw [hre]
        rfl
    · rename_i hno
      split at h
      · rename_i kv hkv
        split at h
        · rename_i hsw
          injection h with ht
          subst ht
          exact startsWith0xCI_shape _ hsw
        · exact absurd h (by simp)
      · exact absurd h (by simp)

/-- Witness for C10 at a concrete fragment address. -/
theorem C10_witness :
    ∃ x rest, S "0xAB" = '0' :: x :: rest ∧ (x = 'x' ∨ x = 'X') :=
  C10_parseDeepLink_shape (Address.mk (S "#_0xAB") []) (S "0xAB") (by decide)

end FivemNatives
